import Mathlib

/-!
Verification of the copy-task planner/executor in `src/fcopy.py`.

The development shallowly embeds the program: `FPath` models
`pathlib.Path` values as an absolute-flag plus a list of components,
`FSTree` models a snapshot of the filesystem, glob matching models
`fnmatch.fnmatch`, and `Task` together with `Task.add`, `Task.prepare`,
`Task.validate`, `Task.summary` and `Task.execute` mirrors the `Task`
class.  Fallible operations (a `ValueError` from `Path.relative_to`, an
`AssertionError` from `validate`, the `max()` call in `summary`) are
rendered with `Except String`.
-/

/-- Model of a `pathlib.Path`: whether the path is absolute, plus its
components.  `⟨true, ["a", "b"]⟩` is `/a/b`; `⟨false, []⟩` is `.`. -/
structure FPath where
  absFlag : Bool
  comps : List String
deriving DecidableEq

namespace FPath

/-- `Path.name`: the final component (empty for `/` and `.`). -/
def name (p : FPath) : String := p.comps.getLastD ""

/-- `Path.is_absolute()`. -/
def is_absolute (p : FPath) : Bool := p.absFlag

/-- `Path.absolute()`: prepend the working directory when relative. -/
def absolute (cwd : List String) (p : FPath) : FPath :=
  if p.absFlag then p else ⟨true, cwd ++ p.comps⟩

/-- `p / rel` for a relative component list `rel`. -/
def join (p : FPath) (rel : List String) : FPath := ⟨p.absFlag, p.comps ++ rel⟩

/-- `Path.relative_to`: the remaining components when `q` is an ancestor
of (or equal to) `p`; `none` models the raised `ValueError`. -/
def relative_to (p q : FPath) : Option (List String) :=
  if p.absFlag = q.absFlag ∧ q.comps.isPrefixOf p.comps then
    some (p.comps.drop q.comps.length)
  else none

/-- `Path.is_relative_to`. -/
def is_relative_to (p q : FPath) : Bool := (p.relative_to q).isSome

/-- `Path.parent` (on the component list: drop the last component). -/
def parentPath (p : FPath) : FPath := ⟨p.absFlag, p.comps.dropLast⟩

/-- `str(Path)` as used in log and error messages. -/
def render (p : FPath) : String :=
  match p.absFlag, p.comps with
  | true, [] => "/"
  | false, [] => "."
  | true, cs => "/" ++ String.intercalate "/" cs
  | false, cs => String.intercalate "/" cs

end FPath

/-! ### Glob matching, modelling `fnmatch.fnmatch` (POSIX case rules) -/

/-- One compiled element of a glob pattern. -/
inductive GlobTok where
  | lit : Char → GlobTok
  | anyChar : GlobTok
  | star : GlobTok
  | cls : Bool → List Char → GlobTok
deriving DecidableEq

/-- Scan a bracket-class body up to the closing bracket, returning the
body and the remainder of the pattern.  `none` means the class is never
closed. -/
def scanClassBody : List Char → Option (List Char × List Char)
  | [] => none
  | ']' :: rest => some ([], rest)
  | c :: rest =>
    match scanClassBody rest with
    | none => none
    | some (b, r) => some (c :: b, r)

/-- Parse the part of a glob pattern following an opening bracket into a
negation flag, the class body and the remainder of the pattern.  The
skipping of a leading `!` and of a literal leading close-bracket follows
`fnmatch.translate`. -/
def splitClass : List Char → Option (Bool × List Char × List Char)
  | '!' :: ']' :: cs2 =>
    match scanClassBody cs2 with
    | none => none
    | some (b, r) => some (true, ']' :: b, r)
  | '!' :: cs1 =>
    match scanClassBody cs1 with
    | none => none
    | some (b, r) => some (true, b, r)
  | ']' :: cs2 =>
    match scanClassBody cs2 with
    | none => none
    | some (b, r) => some (false, ']' :: b, r)
  | cs =>
    match scanClassBody cs with
    | none => none
    | some (b, r) => some (false, b, r)

/-- Worker for `tokenize`; the fuel argument dominates the number of
pattern characters still to be consumed (each step consumes at least
one), so the fuel-exhausted case is never reached from `tokenize`. -/
def tokenizeAux : Nat → List Char → List GlobTok
  | 0, _ => []
  | _ + 1, [] => []
  | fuel + 1, '*' :: rest => .star :: tokenizeAux fuel rest
  | fuel + 1, '?' :: rest => .anyChar :: tokenizeAux fuel rest
  | fuel + 1, '[' :: rest =>
    match splitClass rest with
    | some (n, b, r) => .cls n b :: tokenizeAux fuel r
    | none => .lit '[' :: tokenizeAux fuel rest
  | fuel + 1, c :: rest => .lit c :: tokenizeAux fuel rest

/-- Compile a glob pattern to tokens; an unclosed bracket is a literal. -/
def tokenize (cs : List Char) : List GlobTok := tokenizeAux cs.length cs

/-- Membership of a character in a bracket-class body, with `x-y`
ranges. -/
def classMatch : List Char → Char → Bool
  | [], _ => false
  | x :: '-' :: y :: rest, c => (decide (x ≤ c) && decide (c ≤ y)) || classMatch rest c
  | x :: rest, c => (x = c : Bool) || classMatch rest c

/-- Worker for `matchToks`; the fuel dominates the combined length of
the token list and the string plus one, and every recursive call
shrinks that combined length, so the fuel-exhausted case is never
reached from `matchToks`. -/
def matchToksAux : Nat → List GlobTok → List Char → Bool
  | 0, _, _ => false
  | _ + 1, [], [] => true
  | _ + 1, [], _ :: _ => false
  | fuel + 1, .star :: ts, [] => matchToksAux fuel ts []
  | fuel + 1, .star :: ts, c :: s2 =>
    matchToksAux fuel ts (c :: s2) || matchToksAux fuel (.star :: ts) s2
  | _ + 1, .anyChar :: _, [] => false
  | fuel + 1, .anyChar :: ts, _ :: s2 => matchToksAux fuel ts s2
  | _ + 1, .lit _ :: _, [] => false
  | fuel + 1, .lit c :: ts, c2 :: s2 => (c2 = c : Bool) && matchToksAux fuel ts s2
  | _ + 1, .cls _ _ :: _, [] => false
  | fuel + 1, .cls neg body :: ts, c2 :: s2 =>
    (classMatch body c2 != neg) && matchToksAux fuel ts s2

/-- Match compiled glob tokens against a character list. -/
def matchToks (ts : List GlobTok) (s : List Char) : Bool :=
  matchToksAux (ts.length + s.length + 1) ts s

/-- `fnmatch.fnmatch(nm, pat)` on a POSIX system. -/
def fnmatch (nm : String) (pat : String) : Bool :=
  matchToks (tokenize pat.toList) nm.toList

/-! ### Filesystem snapshot -/

mutual
/-- A snapshot of a filesystem subtree: a regular file carries its size
in bytes (`st_size`), a directory carries its entries. -/
inductive FSTree where
  | file : Nat → FSTree
  | dir : FSChildren → FSTree

/-- The named entries of a directory. -/
inductive FSChildren where
  | nil : FSChildren
  | cons : String → FSTree → FSChildren → FSChildren
end

/-- Find a directory entry by name. -/
def FSChildren.findName : FSChildren → String → Option FSTree
  | .nil, _ => none
  | .cons m t cs, n => if m = n then some t else cs.findName n

/-- Walk a component list down the tree. -/
def FSTree.lookup : FSTree → List String → Option FSTree
  | t, [] => some t
  | .file _, _ :: _ => none
  | .dir cs, n :: rest =>
    match cs.findName n with
    | some t => t.lookup rest
    | none => none

/-- `Path.exists()` against the filesystem snapshot `fs` rooted at `/`,
with relative paths resolved against `cwd`. -/
def pathExists (fs : FSTree) (cwd : List String) (p : FPath) : Bool :=
  (fs.lookup ((p.absolute cwd).comps)).isSome

/-! ### The Task class -/

namespace Fcopy

/-- State of a `Task` object (`fcopy.Task.__init__`): the registered
jobs, the plan built by `prepare`, and the warnings logged so far. -/
structure Task where
  task_count : Nat := 0
  src_list : List FPath := []
  dst_list : List FPath := []
  pat_include : List (List String) := []
  pat_exclude : List (List String) := []
  pre_directories : List FPath := []
  pre_file_src : List FPath := []
  pre_file_dst : List FPath := []
  warnings : List String := []
deriving DecidableEq

/-- A freshly constructed `Task()`. -/
def Task.init : Task := {}

namespace Task

/-- `Task.add`: register one copy job; a missing source or an existing
destination drops the job with a warning, a relative source or
destination only warns. -/
def add (fs : FSTree) (cwd : List String) (t : Task) (src dst : FPath)
    (pat_inc pat_exc : List String) : Task :=
  if pathExists fs cwd src = false then
    { t with warnings :=
        t.warnings ++ ["Source " ++ src.render ++ " does not exist. Skipping..."] }
  else if pathExists fs cwd dst = true then
    { t with warnings :=
        t.warnings ++ ["Destination " ++ dst.render ++ " already exists. Skipping..."] }
  else
    let t1 := if src.is_absolute = false then
        { t with warnings := t.warnings ++ ["Source " ++ src.render ++ " is not absolute."] }
      else t
    let t2 := if dst.is_absolute = false then
        { t1 with warnings := t1.warnings ++ ["Destination " ++ dst.render ++ " is not absolute."] }
      else t1
    { t2 with
      src_list := t2.src_list ++ [src],
      dst_list := t2.dst_list ++ [dst],
      pat_include := t2.pat_include ++ [pat_inc],
      pat_exclude := t2.pat_exclude ++ [pat_exc],
      task_count := t2.task_count + 1 }

/-- The fixed built-in exclude list `Task.__DEFAULT_EXCLUDE_FILE_PATTERNS`. -/
def DEFAULT_EXCLUDE_FILE_PATTERNS : List String :=
  ["~*", "*.tmp", "Thumbs.db", ".DS_Store", ".git", "__pycache__"]

/-- `Task._should_exclude`: the basename matches a built-in pattern or a
pattern of the job's exclude list. -/
def should_exclude (p : FPath) (pat_exc : List String) : Bool :=
  DEFAULT_EXCLUDE_FILE_PATTERNS.any (fun pat => fnmatch p.name pat)
  || pat_exc.any (fun pat => fnmatch p.name pat)

/-- `Task._add_pre_dir`: record a planned directory unless it is already
recorded. -/
def add_pre_dir (t : Task) (pre_dir : FPath) : Task :=
  if t.pre_directories.contains pre_dir then t
  else { t with pre_directories := t.pre_directories ++ [pre_dir] }

/-- `Task._add_pre_file`: record a planned file pair, unconditionally. -/
def add_pre_file (t : Task) (pre_file_src pre_file_dst : FPath) : Task :=
  { t with
    pre_file_src := t.pre_file_src ++ [pre_file_src],
    pre_file_dst := t.pre_file_dst ++ [pre_file_dst] }

/-- The not-a-directory branch of the traversal loop (reached after the
exclusion test): compute the destination directory and destination file
for the entry and record both.  The loop reaches it for regular files
and for queue entries that no longer exist on disk. -/
def visitAsFile (cwd : List String) (src_root dst : FPath) (path : FPath)
    (t : Task) : Except String Task :=
  let src := path.absolute cwd
  match src.relative_to src_root with
  | none => .error ("ValueError: " ++ src.render ++ " is not in the subpath of "
      ++ src_root.render)
  | some rel =>
    let pre_dir := dst.join rel.dropLast
    let pre_dst := pre_dir.join [src.name]
    .ok ((t.add_pre_dir pre_dir).add_pre_file src pre_dst)

mutual
/-- One step of the traversal loop of `Task.prepare`: process the popped
entry (absolutize, test exclusion, then record a directory and descend,
or record a file pair).  `node` is the filesystem snapshot at the
absolutized entry. -/
def visitNode (cwd : List String) (src_root dst : FPath) (exc : List String)
    (path : FPath) (node : FSTree) (t : Task) : Except String Task :=
  let src := path.absolute cwd
  if should_exclude src exc then .ok t
  else
    match node with
    | .dir children =>
      match src.relative_to src_root with
      | none => .error ("ValueError: " ++ src.render ++ " is not in the subpath of "
          ++ src_root.render)
      | some rel =>
        visitChildren cwd src_root dst exc src children (t.add_pre_dir (dst.join rel))
    | .file _ => visitAsFile cwd src_root dst path t

/-- Process the children of a directory.  The loop in `prepare` pops from
the end of the queue, so the entries enqueued by `iterdir` are processed
last-to-first, each subtree completely before its earlier sibling. -/
def visitChildren (cwd : List String) (src_root dst : FPath) (exc : List String)
    (parent : FPath) (children : FSChildren) (t : Task) : Except String Task :=
  match children with
  | .nil => .ok t
  | .cons n c rest =>
    match visitChildren cwd src_root dst exc parent rest t with
    | .error e => .error e
    | .ok t2 => visitNode cwd src_root dst exc (parent.join [n]) c t2
end

/-- Process one queue entry given the filesystem snapshot at its
absolutized path: a missing entry is not a directory, so after the
exclusion test the loop records it as a file. -/
def visitEntry (cwd : List String) (src_root dst : FPath) (exc : List String)
    (path : FPath) (node : Option FSTree) (t : Task) : Except String Task :=
  match node with
  | some n => visitNode cwd src_root dst exc path n t
  | none =>
    let src := path.absolute cwd
    if should_exclude src exc then .ok t
    else visitAsFile cwd src_root dst path t

/-- The per-job loop of `Task.prepare`. -/
def prepare_jobs (fs : FSTree) (cwd : List String) :
    List (FPath × FPath × List String) → Task → Except String Task
  | [], t => .ok t
  | (src_root, dst, exc) :: rest, t =>
    match visitEntry cwd src_root dst exc src_root
        (fs.lookup ((src_root.absolute cwd).comps)) t with
    | .error e => .error e
    | .ok t2 => prepare_jobs fs cwd rest t2

/-- `Task.prepare`: traverse every registered job's source tree and build
the plan. -/
def prepare (fs : FSTree) (cwd : List String) (t : Task) : Except String Task :=
  prepare_jobs fs cwd (t.src_list.zip (t.dst_list.zip t.pat_exclude)) t

/-- The inner `for j in range(i+1, ...)` loop of `Task.validate`. -/
def check_pair (src dst : FPath) : List (FPath × FPath) → Except String Unit
  | [] => .ok ()
  | (s2, d2) :: rest =>
    if src = s2 then .error ("Duplicate source " ++ src.render)
    else if dst = d2 then .error ("Duplicate destination " ++ dst.render)
    else if src.is_relative_to s2 then
      .error ("Source " ++ s2.render ++ " is the parent of " ++ src.render)
    else if s2.is_relative_to src then
      .error ("Source " ++ src.render ++ " is the parent of " ++ s2.render)
    else check_pair src dst rest

/-- The outer pairwise loop of `Task.validate`. -/
def check_pairs : List (FPath × FPath) → Except String Unit
  | [] => .ok ()
  | (s, d) :: rest =>
    match check_pair s d rest with
    | .error e => .error e
    | .ok _ => check_pairs rest

/-- The planned-directory checks of `Task.validate`. -/
def check_dirs (fs : FSTree) (cwd : List String) : List FPath → Except String Unit
  | [] => .ok ()
  | d :: rest =>
    if d.is_absolute = false then
      .error ("Pre-generated destination directory " ++ d.render ++ " is not absolute.")
    else if pathExists fs cwd d then
      .error ("Pre-generated destination directory " ++ d.render ++ " already exists.")
    else check_dirs fs cwd rest

/-- The planned-source-file checks of `Task.validate`. -/
def check_file_srcs (fs : FSTree) (cwd : List String) : List FPath → Except String Unit
  | [] => .ok ()
  | f :: rest =>
    if f.is_absolute = false then
      .error ("Pre-generated source file " ++ f.render ++ " is not absolute.")
    else if pathExists fs cwd f = false then
      .error ("Pre-generated source file " ++ f.render ++ " does not exist.")
    else check_file_srcs fs cwd rest

/-- The planned-destination-file checks of `Task.validate`.  The failure
message for an existing destination interpolates the variable `d`, which
at that point holds the last planned directory (or is unbound when the
planned-directory list is empty) - a faithful rendering of line 171. -/
def check_file_dsts (fs : FSTree) (cwd : List String) (lastDir : Option FPath) :
    List FPath → Except String Unit
  | [] => .ok ()
  | f :: rest =>
    if f.is_absolute = false then
      .error ("Pre-generated destination file " ++ f.render ++ " is not absolute.")
    else if pathExists fs cwd f then
      match lastDir with
      | some d => .error ("Pre-generated destination file " ++ d.render ++ " already exists.")
      | none => .error "NameError: name d is not defined"
    else check_file_dsts fs cwd lastDir rest

/-- `Task.validate`: the four check groups, in program order; any failed
assertion aborts with its message, and nothing is mutated. -/
def validate (fs : FSTree) (cwd : List String) (t : Task) : Except String Unit :=
  if t.task_count = 0 then .error "No tasks to execute."
  else
    match check_pairs (t.src_list.zip t.dst_list) with
    | .error e => .error e
    | .ok _ =>
      match check_dirs fs cwd t.pre_directories with
      | .error e => .error e
      | .ok _ =>
        match check_file_srcs fs cwd t.pre_file_src with
        | .error e => .error e
        | .ok _ => check_file_dsts fs cwd t.pre_directories.getLast? t.pre_file_dst

end Task

/-! ### Summary helpers -/

/-- Index of the last `.` in a name, if any (`str.rfind`). -/
def lastDotIdx : List Char → Option Nat
  | [] => none
  | c :: rest =>
    match lastDotIdx rest with
    | some i => some (i + 1)
    | none => if c = '.' then some 0 else none

/-- `Path.suffix`: the extension of the final component, empty when the
last dot is leading, trailing or absent. -/
def suffixOf (nm : String) : String :=
  let cs := nm.toList
  match lastDotIdx cs with
  | some i => if 0 < i ∧ i < cs.length - 1 then String.mk (cs.drop i) else ""
  | none => ""

/-- Distinct elements in first-occurrence order (the key order of a
`collections.Counter` built from the list). -/
def firstOccs (l : List String) : List String :=
  l.foldl (fun acc x => if acc.contains x then acc else acc ++ [x]) []

/-- Stable insertion into a count-descending list: an element is placed
after all entries with a greater-or-equal count. -/
def insertDesc (x : String × Nat) : List (String × Nat) → List (String × Nat)
  | [] => [x]
  | y :: rest => if y.2 < x.2 then x :: y :: rest else y :: insertDesc x rest

/-- Stable sort by count, descending (the order `Counter.most_common`
produces: larger counts first, ties in insertion order). -/
def sortDesc (l : List (String × Nat)) : List (String × Nat) :=
  l.foldl (fun acc x => insertDesc x acc) []

/-- `Counter(l).most_common(n)`. -/
def most_common (l : List String) (n : Nat) : List (String × Nat) :=
  (sortDesc ((firstOccs l).map (fun x => (x, l.count x)))).take n

/-- `Path.stat().st_size` (an absent path raises `FileNotFoundError`). -/
def stat_size (fs : FSTree) (cwd : List String) (f : FPath) : Except String Nat :=
  match fs.lookup ((f.absolute cwd).comps) with
  | some (.file sz) => .ok sz
  | some (.dir _) => .ok 0
  | none => .error ("FileNotFoundError: " ++ f.render)

/-- `sum(f.stat().st_size for f in ...)`, failing on the first unreadable
entry. -/
def stat_sizes (fs : FSTree) (cwd : List String) : List FPath → Except String Nat
  | [] => .ok 0
  | f :: rest =>
    match stat_size fs cwd f with
    | .error e => .error e
    | .ok sz =>
      match stat_sizes fs cwd rest with
      | .error e => .error e
      | .ok s2 => .ok (sz + s2)

/-- The element contributed by one planned source file to the extension
histogram: `f.suffix.lower()` when `f.suffix` is non-empty (the
`[f.suffix.lower() for f in ... if f.suffix]` comprehension). -/
def suffixKey (f : FPath) : Option String :=
  if suffixOf f.name = "" then none else some (suffixOf f.name).toLower

/-- `Task.summary`: total source size plus the ten most frequent
lowercased extensions.  The `max(...)` over the extension lengths on
line 205 raises `ValueError` when no planned source file has an
extension; that failure is modelled by the error case. -/
def Task.summary (fs : FSTree) (cwd : List String) (t : Task) :
    Except String (Nat × List (String × Nat)) :=
  match stat_sizes fs cwd t.pre_file_src with
  | .error e => .error e
  | .ok total =>
    match most_common (t.pre_file_src.filterMap suffixKey) 10 with
    | [] => .error "ValueError: max() arg is an empty sequence"
    | top => .ok (total, top)

/-! ### Execution -/

/-- One unit of work performed by `Task.execute`: a
`mkdir(parents=True, exist_ok=True)` or a `shutil.copy2`. -/
inductive Op where
  | mkdir : FPath → Op
  | copy : FPath → FPath → Op
deriving DecidableEq

/-- `Task.execute` as the trace of filesystem operations it performs, in
order: first one `mkdir` per planned directory, then one copy per
planned file pair. -/
def Task.execute (t : Task) : List Op :=
  t.pre_directories.map Op.mkdir
    ++ (t.pre_file_src.zip t.pre_file_dst).map (fun p => Op.copy p.1 p.2)

/-- Contents and metadata of a regular file, as transferred by
`shutil.copy2` (bytes, modification time, permission bits). -/
structure FileData where
  bytes : List Nat := []
  mtime : Nat := 0
  mode : Nat := 0
deriving DecidableEq

/-- Directories created and file contents written so far during
execution. -/
structure ExecState where
  dirsMade : List FPath := []
  filesOn : List (FPath × FileData) := []
deriving DecidableEq

/-- All ancestor paths of `p`, `p` included (what
`mkdir(parents=True)` guarantees to exist afterwards). -/
def prefixesOf (p : FPath) : List FPath :=
  (List.range (p.comps.length + 1)).map (fun k => ⟨p.absFlag, p.comps.take k⟩)

/-- First matching entry of the written-files association list. -/
def lookupFile : List (FPath × FileData) → FPath → Option FileData
  | [], _ => none
  | e :: rest, p => if e.1 = p then some e.2 else lookupFile rest p

/-- Effect of one execution step: `mkdir` materializes the directory and
its missing parents; `copy` writes the source's bytes and metadata at
the destination. -/
def applyOp (σ : ExecState) : Op → ExecState
  | .mkdir d => { σ with dirsMade := σ.dirsMade ++ prefixesOf d }
  | .copy s d =>
    match lookupFile σ.filesOn s with
    | some data => { σ with filesOn := (d, data) :: σ.filesOn }
    | none => σ

/-- Run a trace of operations from a starting state. -/
def runTrace (σ : ExecState) (ops : List Op) : ExecState := ops.foldl applyOp σ

/-! ### Concrete fixtures used by witnesses and counterexamples -/

/-- A source tree `/a/x.txt`, `/a/sub/y.tmp`, `/a/.git/config` (the
end-to-end scenario of the specification). -/
def fsE : FSTree := .dir (.cons "a" (.dir
  (.cons "x.txt" (.file 3)
  (.cons "sub" (.dir (.cons "y.tmp" (.file 1) .nil))
  (.cons ".git" (.dir (.cons "config" (.file 2) .nil)) .nil)))) .nil)

/-- A task with the single job `/a → /b` excluding `sub`. -/
def t1Fix : Task :=
  ⟨0, [⟨true, ["a"]⟩], [⟨true, ["b"]⟩], [[]], [["sub"]], [], [], [], []⟩

/-- The plan produced by `prepare` on `t1Fix`. -/
def exT1 : Task :=
  match Task.prepare fsE [] t1Fix with
  | .ok t => t
  | .error _ => Task.init

/-- Source trees `/a/f` and `/x/c/f`. -/
def fs6Fix : FSTree := .dir (.cons "a" (.dir (.cons "f" (.file 1) .nil))
  (.cons "x" (.dir (.cons "c" (.dir (.cons "f" (.file 2) .nil)) .nil)) .nil))

/-- Two jobs `/a → /b/c` and `/x → /b`, registered through `add`. -/
def t6Fix : Task :=
  Task.add fs6Fix []
    (Task.add fs6Fix [] Task.init ⟨true, ["a"]⟩ ⟨true, ["b", "c"]⟩ [] [])
    ⟨true, ["x"]⟩ ⟨true, ["b"]⟩ [] []

/-- The plan produced by `prepare` on `t6Fix`; its two planned files
share the destination `/b/c/f`. -/
def exT6 : Task :=
  match Task.prepare fs6Fix [] t6Fix with
  | .ok t => t
  | .error _ => Task.init

/-- A source tree `/w/a/f`; the working directory used with it is
`/w`. -/
def fs7Fix : FSTree :=
  .dir (.cons "w" (.dir (.cons "a" (.dir (.cons "f" (.file 5) .nil)) .nil)) .nil)

/-- A job with the relative source `a` (resolved under `/w`) and the
absolute destination `/b`, registered through `add`. -/
def t7Fix : Task :=
  Task.add fs7Fix ["w"] Task.init ⟨false, ["a"]⟩ ⟨true, ["b"]⟩ [] []

/-- Source trees `/a/x.txt` and `/c/x.txt`. -/
def fs9Fix : FSTree := .dir (.cons "a" (.dir (.cons "x.txt" (.file 1) .nil))
  (.cons "c" (.dir (.cons "x.txt" (.file 2) .nil)) .nil))

/-- A plan whose planned destination file `/c/x.txt` already exists
while the planned directories `/b` and `/b/sub` do not. -/
def t9Fix : Task :=
  { task_count := 1
    src_list := [⟨true, ["a"]⟩]
    dst_list := [⟨true, ["b"]⟩]
    pat_include := [[]]
    pat_exclude := [[]]
    pre_directories := [⟨true, ["b"]⟩, ⟨true, ["b", "sub"]⟩]
    pre_file_src := [⟨true, ["a", "x.txt"]⟩]
    pre_file_dst := [⟨true, ["c", "x.txt"]⟩] }

/-- A plan with one planned directory `/b` and one planned file
`/a/f → /b/f`. -/
def t4Fix : Task :=
  { pre_directories := [⟨true, ["b"]⟩]
    pre_file_src := [⟨true, ["a", "f"]⟩]
    pre_file_dst := [⟨true, ["b", "f"]⟩] }

end Fcopy

/-! ## Theorems -/

namespace Fcopy

/-! ### Execution-order lemmas (for the two passes of `execute`) -/

theorem dirsMade_applyOp_mono {σ : ExecState} {d : FPath} (h : d ∈ σ.dirsMade)
    (op : Op) : d ∈ (applyOp σ op).dirsMade := by
  cases op with
  | mkdir x => simp only [applyOp]; exact List.mem_append_left _ h
  | copy s f =>
    cases hlk : lookupFile σ.filesOn s <;> simp only [applyOp, hlk] <;> exact h

theorem dirsMade_runTrace_mono {σ : ExecState} {d : FPath} (h : d ∈ σ.dirsMade)
    (ops : List Op) : d ∈ (runTrace σ ops).dirsMade := by
  induction ops generalizing σ with
  | nil => exact h
  | cons op rest ih => exact ih (dirsMade_applyOp_mono h op)

theorem self_mem_prefixesOf (p : FPath) : p ∈ prefixesOf p := by
  unfold prefixesOf
  refine List.mem_map.mpr ⟨p.comps.length, ?_, ?_⟩
  · simp
  · cases p with
    | mk b cs => simp

theorem mem_runTrace_mkdirs {d : FPath} :
    ∀ (dirs : List FPath) (σ : ExecState), d ∈ dirs →
      d ∈ (runTrace σ (dirs.map Op.mkdir)).dirsMade := by
  intro dirs
  induction dirs with
  | nil => intro σ h; cases h
  | cons a rest ih =>
    intro σ h
    rcases List.mem_cons.mp h with rfl | h2
    · have hmem : d ∈ (applyOp σ (Op.mkdir d)).dirsMade := by
        simp only [applyOp]
        exact List.mem_append_right _ (self_mem_prefixesOf d)
      exact dirsMade_runTrace_mono hmem _
    · exact ih _ h2

theorem execute_getElem_mkdir_lt {t : Task} {i : Nat} {d : FPath}
    (h : (Task.execute t)[i]? = some (Op.mkdir d)) : i < t.pre_directories.length := by
  by_contra hc
  push_neg at hc
  unfold Task.execute at h
  rw [List.getElem?_append_right (by simpa using hc)] at h
  simp [List.getElem?_map] at h

theorem execute_getElem_copy_ge {t : Task} {k : Nat} {s f : FPath}
    (h : (Task.execute t)[k]? = some (Op.copy s f)) : t.pre_directories.length ≤ k := by
  by_contra hc
  push_neg at hc
  unfold Task.execute at h
  rw [List.getElem?_append_left (by simpa using hc)] at h
  simp [List.getElem?_map] at h

theorem runTrace_append (σ : ExecState) (a b : List Op) :
    runTrace σ (a ++ b) = runTrace (runTrace σ a) b := by
  simp [runTrace, List.foldl_append]

/-- C4: `execute` runs in two strict passes.  Every `mkdir` in the trace
precedes every copy; before any copy runs, every planned directory has
already been materialized; and each copy writes the source file's bytes
and metadata at the destination. -/
theorem claim_C4_execute_order : ∀ (t : Task),
    (∀ (i j : Nat) (d s f : FPath), (Task.execute t)[i]? = some (Op.mkdir d) →
      (Task.execute t)[j]? = some (Op.copy s f) → i < j) ∧
    (∀ (σ : ExecState) (k : Nat) (s f : FPath),
      (Task.execute t)[k]? = some (Op.copy s f) →
      ∀ d ∈ t.pre_directories, d ∈ (runTrace σ ((Task.execute t).take k)).dirsMade) ∧
    (∀ (σ : ExecState) (s d : FPath) (data : FileData),
      lookupFile σ.filesOn s = some data →
      lookupFile ((applyOp σ (Op.copy s d)).filesOn) d = some data) := by
  intro t
  refine ⟨?_, ?_, ?_⟩
  · intro i j d s f hi hj
    exact lt_of_lt_of_le (execute_getElem_mkdir_lt hi) (execute_getElem_copy_ge hj)
  · intro σ k s f hk d hd
    have hge := execute_getElem_copy_ge hk
    have hlen : (t.pre_directories.map Op.mkdir).length ≤ k := by simpa using hge
    unfold Task.execute
    rw [List.take_append_eq_append_take, List.take_of_length_le hlen, runTrace_append]
    exact dirsMade_runTrace_mono (mem_runTrace_mkdirs _ _ hd) _
  · intro σ s d data h
    simp [applyOp, h, lookupFile]

/-- C4 witness: the concrete plan `t4Fix` instantiates every part of the
ordering theorem. -/
theorem claim_C4_witness :
    ((Task.execute t4Fix)[0]? = some (Op.mkdir ⟨true, ["b"]⟩)) ∧
    ((Task.execute t4Fix)[1]? =
      some (Op.copy ⟨true, ["a", "f"]⟩ ⟨true, ["b", "f"]⟩)) ∧
    (0 < 1) ∧
    ((⟨true, ["b"]⟩ : FPath) ∈ t4Fix.pre_directories) ∧
    ((⟨true, ["b"]⟩ : FPath) ∈ (runTrace {} ((Task.execute t4Fix).take 1)).dirsMade) ∧
    (lookupFile [((⟨true, ["a", "f"]⟩ : FPath), ({} : FileData))] ⟨true, ["a", "f"]⟩ =
      some {}) ∧
    (lookupFile ((applyOp { filesOn := [(⟨true, ["a", "f"]⟩, {})] }
        (Op.copy ⟨true, ["a", "f"]⟩ ⟨true, ["b", "f"]⟩)).filesOn) ⟨true, ["b", "f"]⟩ =
      some {}) := by
  have H := claim_C4_execute_order t4Fix
  exact ⟨rfl, rfl, H.1 0 1 _ _ _ rfl rfl, by decide,
    H.2.1 {} 1 _ _ rfl _ (by decide), rfl, H.2.2 _ _ _ _ rfl⟩

/-! ### Registration (`add`) -/

/-- C3: a missing source or an existing destination leaves every job
list and the job count unchanged and adds exactly one warning;
otherwise exactly one job is appended to each job list. -/
theorem claim_C3_add_behavior : ∀ (fs : FSTree) (cwd : List String) (t : Task)
    (src dst : FPath) (inc exc : List String),
    ((pathExists fs cwd src = false ∨ pathExists fs cwd dst = true) →
      ((Task.add fs cwd t src dst inc exc).task_count = t.task_count ∧
       (Task.add fs cwd t src dst inc exc).src_list = t.src_list ∧
       (Task.add fs cwd t src dst inc exc).dst_list = t.dst_list ∧
       (Task.add fs cwd t src dst inc exc).pat_include = t.pat_include ∧
       (Task.add fs cwd t src dst inc exc).pat_exclude = t.pat_exclude ∧
       (Task.add fs cwd t src dst inc exc).pre_directories = t.pre_directories ∧
       (Task.add fs cwd t src dst inc exc).pre_file_src = t.pre_file_src ∧
       (Task.add fs cwd t src dst inc exc).pre_file_dst = t.pre_file_dst ∧
       ∃ w, (Task.add fs cwd t src dst inc exc).warnings = t.warnings ++ [w])) ∧
    (pathExists fs cwd src = true → pathExists fs cwd dst = false →
      ((Task.add fs cwd t src dst inc exc).task_count = t.task_count + 1 ∧
       (Task.add fs cwd t src dst inc exc).src_list = t.src_list ++ [src] ∧
       (Task.add fs cwd t src dst inc exc).dst_list = t.dst_list ++ [dst] ∧
       (Task.add fs cwd t src dst inc exc).pat_include = t.pat_include ++ [inc] ∧
       (Task.add fs cwd t src dst inc exc).pat_exclude = t.pat_exclude ++ [exc] ∧
       (Task.add fs cwd t src dst inc exc).pre_directories = t.pre_directories ∧
       (Task.add fs cwd t src dst inc exc).pre_file_src = t.pre_file_src ∧
       (Task.add fs cwd t src dst inc exc).pre_file_dst = t.pre_file_dst)) := by
  intro fs cwd t src dst inc exc
  constructor
  · rintro (h | h)
    · simp [Task.add, h]
    · by_cases hs : pathExists fs cwd src = false <;> simp [Task.add, hs, h]
  · intro h1 h2
    by_cases ha : src.is_absolute = false <;> by_cases hb : dst.is_absolute = false <;>
      simp [Task.add, h1, h2, ha, hb]

/-- C3 witness: adding the missing source `/zzz` to a fresh task leaves
it without jobs and logs one warning. -/
theorem claim_C3_witness :
    (pathExists fsE [] ⟨true, ["zzz"]⟩ = false) ∧
    ((Task.add fsE [] Task.init ⟨true, ["zzz"]⟩ ⟨true, ["b"]⟩ [] []).task_count =
        Task.init.task_count ∧
      (Task.add fsE [] Task.init ⟨true, ["zzz"]⟩ ⟨true, ["b"]⟩ [] []).src_list =
        Task.init.src_list ∧
      (Task.add fsE [] Task.init ⟨true, ["zzz"]⟩ ⟨true, ["b"]⟩ [] []).dst_list =
        Task.init.dst_list ∧
      (Task.add fsE [] Task.init ⟨true, ["zzz"]⟩ ⟨true, ["b"]⟩ [] []).pat_include =
        Task.init.pat_include ∧
      (Task.add fsE [] Task.init ⟨true, ["zzz"]⟩ ⟨true, ["b"]⟩ [] []).pat_exclude =
        Task.init.pat_exclude ∧
      (Task.add fsE [] Task.init ⟨true, ["zzz"]⟩ ⟨true, ["b"]⟩ [] []).pre_directories =
        Task.init.pre_directories ∧
      (Task.add fsE [] Task.init ⟨true, ["zzz"]⟩ ⟨true, ["b"]⟩ [] []).pre_file_src =
        Task.init.pre_file_src ∧
      (Task.add fsE [] Task.init ⟨true, ["zzz"]⟩ ⟨true, ["b"]⟩ [] []).pre_file_dst =
        Task.init.pre_file_dst ∧
      ∃ w, (Task.add fsE [] Task.init ⟨true, ["zzz"]⟩ ⟨true, ["b"]⟩ [] []).warnings =
        Task.init.warnings ++ [w]) :=
  ⟨rfl, (claim_C3_add_behavior fsE [] Task.init ⟨true, ["zzz"]⟩ ⟨true, ["b"]⟩ [] []).1
    (Or.inl rfl)⟩

/-! ### Validation characterization -/

/-- The pairwise condition `validate` enforces between two jobs: distinct
sources, distinct destinations, and neither source an ancestor of (or
equal to) the other. -/
def pairOk (x y : FPath × FPath) : Prop :=
  x.1 ≠ y.1 ∧ x.2 ≠ y.2 ∧
  x.1.is_relative_to y.1 = false ∧ y.1.is_relative_to x.1 = false

theorem check_pair_ok_iff {s d : FPath} {l : List (FPath × FPath)} :
    Task.check_pair s d l = .ok () ↔ ∀ y ∈ l, pairOk (s, d) y := by
  induction l with
  | nil => simp [Task.check_pair]
  | cons y rest ih =>
    obtain ⟨s2, d2⟩ := y
    simp only [Task.check_pair]
    split_ifs with h1 h2 h3 h4 <;> simp_all [pairOk]

theorem check_pairs_ok_iff {l : List (FPath × FPath)} :
    Task.check_pairs l = .ok () ↔ l.Pairwise pairOk := by
  induction l with
  | nil => simp [Task.check_pairs]
  | cons y rest ih =>
    obtain ⟨s, d⟩ := y
    simp only [Task.check_pairs]
    cases hcp : Task.check_pair s d rest with
    | error e =>
      simp only [List.pairwise_cons]
      constructor
      · intro h; cases h
      · intro ⟨hall, _⟩
        exact absurd (check_pair_ok_iff.mpr (fun y hy => hall y hy)) (by simp [hcp])
    | ok u =>
      cases u
      rw [ih, List.pairwise_cons]
      constructor
      · intro h
        exact ⟨fun y hy => (check_pair_ok_iff.mp hcp) y hy, h⟩
      · intro ⟨_, h⟩; exact h

theorem check_dirs_ok_iff {fs : FSTree} {cwd : List String} {l : List FPath} :
    Task.check_dirs fs cwd l = .ok () ↔
      ∀ d ∈ l, d.is_absolute = true ∧ pathExists fs cwd d = false := by
  induction l with
  | nil => simp [Task.check_dirs]
  | cons d rest ih =>
    simp only [Task.check_dirs]
    split_ifs with h1 h2 <;> simp_all

theorem check_file_srcs_ok_iff {fs : FSTree} {cwd : List String} {l : List FPath} :
    Task.check_file_srcs fs cwd l = .ok () ↔
      ∀ f ∈ l, f.is_absolute = true ∧ pathExists fs cwd f = true := by
  induction l with
  | nil => simp [Task.check_file_srcs]
  | cons f rest ih =>
    simp only [Task.check_file_srcs]
    split_ifs with h1 h2 <;> simp_all

theorem check_file_dsts_ok_iff {fs : FSTree} {cwd : List String}
    {lastDir : Option FPath} {l : List FPath} :
    Task.check_file_dsts fs cwd lastDir l = .ok () ↔
      ∀ f ∈ l, f.is_absolute = true ∧ pathExists fs cwd f = false := by
  induction l with
  | nil => simp [Task.check_file_dsts]
  | cons f rest ih =>
    simp only [Task.check_file_dsts]
    split_ifs with h1 h2
    · simp_all
    · cases lastDir <;> simp_all
    · simp_all

theorem validate_ok_iff (fs : FSTree) (cwd : List String) (t : Task) :
    Task.validate fs cwd t = .ok () ↔
      (0 < t.task_count ∧
       (t.src_list.zip t.dst_list).Pairwise pairOk ∧
       (∀ d ∈ t.pre_directories, d.is_absolute = true ∧ pathExists fs cwd d = false) ∧
       (∀ f ∈ t.pre_file_src, f.is_absolute = true ∧ pathExists fs cwd f = true) ∧
       (∀ f ∈ t.pre_file_dst, f.is_absolute = true ∧ pathExists fs cwd f = false)) := by
  unfold Task.validate
  split_ifs with h0
  · simp [h0]
  · have hpos : 0 < t.task_count := Nat.pos_of_ne_zero h0
    cases hcp : Task.check_pairs (t.src_list.zip t.dst_list) with
    | error e =>
      simp only [hpos, true_and]
      constructor
      · intro h; cases h
      · intro ⟨hpw, _⟩
        exact absurd (check_pairs_ok_iff.mpr hpw) (by simp [hcp])
    | ok u =>
      cases u
      cases hcd : Task.check_dirs fs cwd t.pre_directories with
      | error e =>
        constructor
        · intro h; cases h
        · intro ⟨_, _, hd, _⟩
          exact absurd (check_dirs_ok_iff.mpr hd) (by simp [hcd])
      | ok u =>
        cases u
        cases hcs : Task.check_file_srcs fs cwd t.pre_file_src with
        | error e =>
          constructor
          · intro h; cases h
          · intro ⟨_, _, _, hs, _⟩
            exact absurd (check_file_srcs_ok_iff.mpr hs) (by simp [hcs])
        | ok u =>
          cases u
          rw [check_file_dsts_ok_iff]
          constructor
          · intro h
            exact ⟨hpos, check_pairs_ok_iff.mp hcp, check_dirs_ok_iff.mp hcd,
              check_file_srcs_ok_iff.mp hcs, h⟩
          · intro h
            exact h.2.2.2.2

/-- C2: `validate` succeeds exactly when at least one job is registered,
the jobs pairwise have distinct sources, distinct destinations and
non-nested sources, every planned directory is absolute and absent,
every planned source file is absolute and present, and every planned
destination file is absolute and absent.  It returns only a unit (or an
error): no planner state and no filesystem state is produced or
changed. -/
theorem claim_C2_validate_iff : ∀ (fs : FSTree) (cwd : List String) (t : Task),
    Task.validate fs cwd t = .ok () ↔
      (0 < t.task_count ∧
       (t.src_list.zip t.dst_list).Pairwise pairOk ∧
       (∀ d ∈ t.pre_directories, d.is_absolute = true ∧ pathExists fs cwd d = false) ∧
       (∀ f ∈ t.pre_file_src, f.is_absolute = true ∧ pathExists fs cwd f = true) ∧
       (∀ f ∈ t.pre_file_dst, f.is_absolute = true ∧ pathExists fs cwd f = false)) :=
  validate_ok_iff

/-! ### Duplicate planned destinations (C6) -/

/-- C6 counterexample: a plan produced by the pipeline itself (jobs
`/a → /b/c` and `/x → /b` over `fs6Fix`) contains two planned files with
the same destination `/b/c/f`, yet `validate` succeeds. -/
theorem claim_C6_counterexample :
    Task.prepare fs6Fix [] t6Fix = .ok exT6 ∧
    exT6.pre_file_dst = [⟨true, ["b", "c", "f"]⟩, ⟨true, ["b", "c", "f"]⟩] ∧
    Task.validate fs6Fix [] exT6 = .ok () := ⟨rfl, rfl, rfl⟩

/-- C6 amended: planned files are never deduplicated (`_add_pre_file`
always appends), and `validate` does not reject duplicate planned
destinations as such - it only tests each destination against the
filesystem, so appending a second planned file whose absolute source
exists and whose absolute destination does not exist preserves a
successful validation. -/
theorem claim_C6_amended : ∀ (t : Task) (s d : FPath),
    ((Task.add_pre_file t s d).pre_file_src = t.pre_file_src ++ [s] ∧
     (Task.add_pre_file t s d).pre_file_dst = t.pre_file_dst ++ [d]) ∧
    (∀ (fs : FSTree) (cwd : List String),
      Task.validate fs cwd t = .ok () →
      s.is_absolute = true → pathExists fs cwd s = true →
      d.is_absolute = true → pathExists fs cwd d = false →
      Task.validate fs cwd (Task.add_pre_file t s d) = .ok ()) := by
  intro t s d
  constructor
  · exact ⟨rfl, rfl⟩
  · intro fs cwd hv hs1 hs2 hd1 hd2
    rw [validate_ok_iff] at hv
    rw [validate_ok_iff]
    simp only [Task.add_pre_file]
    obtain ⟨h1, h2, h3, h4, h5⟩ := hv
    refine ⟨h1, h2, h3, ?_, ?_⟩
    · intro f hf
      rcases List.mem_append.mp hf with hf | hf
      · exact h4 f hf
      · rcases List.mem_singleton.mp hf with rfl
        exact ⟨hs1, hs2⟩
    · intro f hf
      rcases List.mem_append.mp hf with hf | hf
      · exact h5 f hf
      · rcases List.mem_singleton.mp hf with rfl
        exact ⟨hd1, hd2⟩

/-- C6 witness: appending `/a/f → /b/c/g` (a duplicate of an
already-planned source) to the validated plan `exT6` keeps validation
successful. -/
theorem claim_C6_witness :
    (Task.validate fs6Fix [] exT6 = .ok ()) ∧
    ((⟨true, ["a", "f"]⟩ : FPath).is_absolute = true) ∧
    (pathExists fs6Fix [] ⟨true, ["a", "f"]⟩ = true) ∧
    ((⟨true, ["b", "c", "g"]⟩ : FPath).is_absolute = true) ∧
    (pathExists fs6Fix [] ⟨true, ["b", "c", "g"]⟩ = false) ∧
    (Task.validate fs6Fix []
      (Task.add_pre_file exT6 ⟨true, ["a", "f"]⟩ ⟨true, ["b", "c", "g"]⟩) = .ok ()) :=
  ⟨rfl, rfl, rfl, rfl, rfl,
    (claim_C6_amended exT6 ⟨true, ["a", "f"]⟩ ⟨true, ["b", "c", "g"]⟩).2 fs6Fix []
      rfl rfl rfl rfl rfl⟩

/-! ### Relative source paths (C7) -/

/-- C7: `add` accepts the relative source `a` with only a warning and
registers the job, but `prepare` then aborts with a `ValueError`,
because the absolutized entry `/w/a` is never relative to the relative
source root `a`. -/
theorem claim_C7_relative_source_bug :
    t7Fix.task_count = 1 ∧
    t7Fix.warnings = ["Source a is not absolute."] ∧
    Task.prepare fs7Fix ["w"] t7Fix =
      .error "ValueError: /w/a is not in the subpath of a" := ⟨rfl, rfl, rfl⟩

/-! ### Summary totality (C8) -/

theorem insertDesc_ne_nil (x : String × Nat) (l : List (String × Nat)) :
    insertDesc x l ≠ [] := by
  cases l with
  | nil => simp [insertDesc]
  | cons y rest =>
    simp only [insertDesc]
    split_ifs <;> simp

theorem foldl_insertDesc_ne_nil (l : List (String × Nat)) :
    ∀ acc : List (String × Nat), acc ≠ [] →
      l.foldl (fun a x => insertDesc x a) acc ≠ [] := by
  induction l with
  | nil => intro acc h; exact h
  | cons x rest ih =>
    intro acc _
    simp only [List.foldl_cons]
    exact ih _ (insertDesc_ne_nil x acc)

theorem sortDesc_eq_nil_iff (l : List (String × Nat)) : sortDesc l = [] ↔ l = [] := by
  constructor
  · intro h
    cases l with
    | nil => rfl
    | cons x rest =>
      refine absurd h ?_
      unfold sortDesc
      simp only [List.foldl_cons]
      exact foldl_insertDesc_ne_nil rest _ (insertDesc_ne_nil x [])
  · rintro rfl; rfl

theorem foldl_firstOccs_ne_nil (l : List String) :
    ∀ acc : List String, acc ≠ [] →
      l.foldl (fun acc x => if acc.contains x then acc else acc ++ [x]) acc ≠ [] := by
  induction l with
  | nil => intro acc h; exact h
  | cons x rest ih =>
    intro acc h
    simp only [List.foldl_cons]
    refine ih _ ?_
    split_ifs with hc
    · exact h
    · simp

theorem firstOccs_eq_nil_iff (l : List String) : firstOccs l = [] ↔ l = [] := by
  constructor
  · intro h
    cases l with
    | nil => rfl
    | cons x rest =>
      refine absurd h ?_
      unfold firstOccs
      simp only [List.foldl_cons]
      have hstep : (if ([] : List String).contains x then ([] : List String)
          else [] ++ [x]) = [x] := by simp
      rw [hstep]
      exact foldl_firstOccs_ne_nil rest [x] (by simp)
  · rintro rfl; rfl

theorem most_common_ten_eq_nil_iff (l : List String) : most_common l 10 = [] ↔ l = [] := by
  unfold most_common
  rw [List.take_eq_nil_iff]
  constructor
  · rintro (h | h)
    · cases h
    · have hmap := (sortDesc_eq_nil_iff _).mp h
      have : firstOccs l = [] := by
        have hlen := congrArg List.length hmap
        simpa [List.length_eq_zero] using hlen
      exact (firstOccs_eq_nil_iff l).mp this
  · rintro rfl
    right; rfl

theorem stat_size_ok_iff {fs : FSTree} {cwd : List String} {f : FPath} :
    (∃ n, stat_size fs cwd f = .ok n) ↔ pathExists fs cwd f = true := by
  unfold stat_size pathExists
  cases h : FSTree.lookup fs ((f.absolute cwd).comps) with
  | none => simp
  | some node => cases node <;> simp

theorem stat_sizes_ok_iff {fs : FSTree} {cwd : List String} {l : List FPath} :
    (∃ n, stat_sizes fs cwd l = .ok n) ↔ ∀ f ∈ l, pathExists fs cwd f = true := by
  induction l with
  | nil => simp [stat_sizes]
  | cons f rest ih =>
    simp only [stat_sizes]
    cases hs : stat_size fs cwd f with
    | error e =>
      have hf : ¬ pathExists fs cwd f = true := by
        rw [← stat_size_ok_iff]
        simp [hs]
      constructor
      · rintro ⟨n, hn⟩; cases hn
      · intro h; exact absurd (h f (List.mem_cons_self f rest)) hf
    | ok sz =>
      have hf : pathExists fs cwd f = true := stat_size_ok_iff.mp ⟨sz, hs⟩
      cases hrest : stat_sizes fs cwd rest with
      | error e =>
        have hr : ¬ ∀ g ∈ rest, pathExists fs cwd g = true := by
          rw [← ih]
          simp [hrest]
        constructor
        · rintro ⟨n, hn⟩; cases hn
        · intro h
          exact absurd (fun g hg => h g (List.mem_cons_of_mem f hg)) hr
      | ok s2 =>
        constructor
        · intro _
          intro g hg
          rcases List.mem_cons.mp hg with rfl | hg
          · exact hf
          · exact (ih.mp ⟨s2, hrest⟩) g hg
        · intro _
          exact ⟨sz + s2, rfl⟩

theorem suffixKey_eq_none_iff (f : FPath) : suffixKey f = none ↔ suffixOf f.name = "" := by
  unfold suffixKey
  split_ifs with h <;> simp [h]

/-- C8 counterexample: on a plan with zero planned files every source's
metadata is (vacuously) readable, yet `summary` raises `ValueError`
from the `max()` call over an empty extension list. -/
theorem claim_C8_counterexample :
    (∀ f ∈ Task.init.pre_file_src, pathExists fsE [] f = true) ∧
    Task.summary fsE [] Task.init =
      .error "ValueError: max() arg is an empty sequence" :=
  ⟨by simp [Task.init], rfl⟩

/-- C8 amended: `summary` completes without raising exactly when every
planned source file's metadata can be read and at least one planned
source file has a non-empty extension; with zero planned files, or none
carrying an extension, the `max()` over the extension lengths raises
`ValueError`. -/
theorem claim_C8_amended_summary : ∀ (fs : FSTree) (cwd : List String) (t : Task),
    (∃ r, Task.summary fs cwd t = .ok r) ↔
      ((∀ f ∈ t.pre_file_src, pathExists fs cwd f = true) ∧
       (∃ f ∈ t.pre_file_src, suffixOf f.name ≠ "")) := by
  intro fs cwd t
  unfold Task.summary
  cases hs : stat_sizes fs cwd t.pre_file_src with
  | error e =>
    have hns : ¬ ∀ f ∈ t.pre_file_src, pathExists fs cwd f = true := by
      rw [← stat_sizes_ok_iff]
      simp [hs]
    constructor
    · rintro ⟨r, hr⟩; cases hr
    · rintro ⟨h1, _⟩; exact absurd h1 hns
  | ok total =>
    have h1 : ∀ f ∈ t.pre_file_src, pathExists fs cwd f = true :=
      stat_sizes_ok_iff.mp ⟨total, hs⟩
    cases hmc : most_common (t.pre_file_src.filterMap suffixKey) 10 with
    | nil =>
      have hfm : t.pre_file_src.filterMap suffixKey = [] :=
        (most_common_ten_eq_nil_iff _).mp hmc
      have hall : ∀ f ∈ t.pre_file_src, suffixOf f.name = "" := by
        intro f hf
        exact (suffixKey_eq_none_iff f).mp
          (List.filterMap_eq_nil_iff.mp hfm f hf)
      constructor
      · rintro ⟨r, hr⟩; cases hr
      · rintro ⟨_, g, hg, hgs⟩
        exact absurd (hall g hg) hgs
    | cons hd tl =>
      have hfm : t.pre_file_src.filterMap suffixKey ≠ [] := by
        intro hnil
        rw [(most_common_ten_eq_nil_iff _).mpr hnil] at hmc
        cases hmc
      constructor
      · intro _
        refine ⟨h1, ?_⟩
        by_contra hno
        push_neg at hno
        exact hfm (List.filterMap_eq_nil_iff.mpr (fun f hf =>
          (suffixKey_eq_none_iff f).mpr (hno f hf)))
      · intro _
        exact ⟨(total, hd :: tl), rfl⟩

/-! ### Validation error messages (C9) -/

/-- C9: when `validate` fails because the planned destination file
`/c/x.txt` already exists, the error message names `/b/sub` - the last
planned directory - instead of the offending file (line 171 interpolates
the stale loop variable `d`). -/
theorem claim_C9_message_bug :
    Task.validate fs9Fix [] t9Fix =
      .error "Pre-generated destination file /b/sub already exists." ∧
    t9Fix.pre_file_dst = [⟨true, ["c", "x.txt"]⟩] ∧
    pathExists fs9Fix [] ⟨true, ["c", "x.txt"]⟩ = true ∧
    FPath.render ⟨true, ["c", "x.txt"]⟩ = "/c/x.txt" ∧
    FPath.render ⟨true, ["b", "sub"]⟩ = "/b/sub" := ⟨rfl, rfl, rfl, rfl, rfl⟩

/-! ### Plan-building step lemmas -/

theorem contains_true_iff_mem {l : List FPath} {d : FPath} :
    l.contains d = true ↔ d ∈ l := by
  simp [List.contains_iff_exists_mem_beq, beq_iff_eq]

theorem add_pre_dir_pre_file_src (t : Task) (d : FPath) :
    (t.add_pre_dir d).pre_file_src = t.pre_file_src := by
  unfold Task.add_pre_dir
  split <;> rfl

theorem add_pre_dir_pre_file_dst (t : Task) (d : FPath) :
    (t.add_pre_dir d).pre_file_dst = t.pre_file_dst := by
  unfold Task.add_pre_dir
  split <;> rfl

theorem add_pre_dir_dirs_append (t : Task) (d : FPath) :
    ∃ ds, (t.add_pre_dir d).pre_directories = t.pre_directories ++ ds := by
  unfold Task.add_pre_dir
  split
  · exact ⟨[], by simp⟩
  · exact ⟨[d], rfl⟩

theorem mem_add_pre_dir_self (t : Task) (d : FPath) :
    d ∈ (t.add_pre_dir d).pre_directories := by
  unfold Task.add_pre_dir
  split
  · next hcon => exact contains_true_iff_mem.mp hcon
  · simp

theorem mem_add_pre_dir_cases {t : Task} {pd d : FPath}
    (h : d ∈ (t.add_pre_dir pd).pre_directories) :
    d ∈ t.pre_directories ∨ d = pd := by
  unfold Task.add_pre_dir at h
  split at h
  · exact Or.inl h
  · rcases List.mem_append.mp h with h2 | h2
    · exact Or.inl h2
    · exact Or.inr (List.mem_singleton.mp h2)

theorem add_pre_dir_nodup {t : Task} (d : FPath) (h : t.pre_directories.Nodup) :
    (t.add_pre_dir d).pre_directories.Nodup := by
  unfold Task.add_pre_dir
  split
  · exact h
  · next hcon =>
    have hnm : d ∉ t.pre_directories := fun hm =>
      hcon (contains_true_iff_mem.mpr hm)
    rw [← List.concat_eq_append]
    exact List.Nodup.concat hnm h

theorem parentPath_join_single (p : FPath) (n : String) :
    (p.join [n]).parentPath = p := by
  cases p with
  | mk b cs => simp [FPath.join, FPath.parentPath]

/-- Everything `prepare` preserves about the plan under construction:
the three plan lists only grow at the end, freedom from duplicates of
the planned-directory list is preserved, and so is the invariant that
every planned destination file's parent is a planned directory. -/
def planInv (t t' : Task) : Prop :=
  (∃ ds, t'.pre_directories = t.pre_directories ++ ds) ∧
  (∃ ss, t'.pre_file_src = t.pre_file_src ++ ss) ∧
  (∃ fd, t'.pre_file_dst = t.pre_file_dst ++ fd) ∧
  (t.pre_directories.Nodup → t'.pre_directories.Nodup) ∧
  ((∀ d ∈ t.pre_file_dst, d.parentPath ∈ t.pre_directories) →
    ∀ d ∈ t'.pre_file_dst, d.parentPath ∈ t'.pre_directories)

theorem planInv_refl (t : Task) : planInv t t :=
  ⟨⟨[], by simp⟩, ⟨[], by simp⟩, ⟨[], by simp⟩, id, id⟩

theorem planInv_trans {t1 t2 t3 : Task} (h12 : planInv t1 t2) (h23 : planInv t2 t3) :
    planInv t1 t3 := by
  obtain ⟨⟨ds1, hd1⟩, ⟨ss1, hs1⟩, ⟨fd1, hf1⟩, hn1, hp1⟩ := h12
  obtain ⟨⟨ds2, hd2⟩, ⟨ss2, hs2⟩, ⟨fd2, hf2⟩, hn2, hp2⟩ := h23
  refine ⟨⟨ds1 ++ ds2, ?_⟩, ⟨ss1 ++ ss2, ?_⟩, ⟨fd1 ++ fd2, ?_⟩, fun h => hn2 (hn1 h),
    fun h => hp2 (hp1 h)⟩
  · rw [hd2, hd1, List.append_assoc]
  · rw [hs2, hs1, List.append_assoc]
  · rw [hf2, hf1, List.append_assoc]

theorem planInv_add_pre_dir (t : Task) (d : FPath) : planInv t (t.add_pre_dir d) := by
  refine ⟨add_pre_dir_dirs_append t d,
    ⟨[], by rw [add_pre_dir_pre_file_src]; simp⟩,
    ⟨[], by rw [add_pre_dir_pre_file_dst]; simp⟩,
    add_pre_dir_nodup d, ?_⟩
  intro hP f hf
  rw [add_pre_dir_pre_file_dst] at hf
  obtain ⟨ds, hds⟩ := add_pre_dir_dirs_append t d
  rw [hds]
  exact List.mem_append_left _ (hP f hf)

theorem planInv_record_file (t : Task) (pd src : FPath) (n : String) :
    planInv t ((t.add_pre_dir pd).add_pre_file src (pd.join [n])) := by
  refine planInv_trans (planInv_add_pre_dir t pd) ?_
  refine ⟨⟨[], by simp [Task.add_pre_file]⟩,
    ⟨[src], by simp [Task.add_pre_file]⟩,
    ⟨[pd.join [n]], by simp [Task.add_pre_file]⟩,
    fun h => by simpa [Task.add_pre_file] using h, ?_⟩
  intro hP f hf
  simp only [Task.add_pre_file] at hf ⊢
  rcases List.mem_append.mp hf with hf2 | hf2
  · exact hP f hf2
  · rcases List.mem_singleton.mp hf2 with rfl
    rw [parentPath_join_single]
    exact mem_add_pre_dir_self t pd

theorem visitAsFile_planInv {cwd : List String} {src_root dst : FPath} {path : FPath}
    {t t' : Task} (h : Task.visitAsFile cwd src_root dst path t = .ok t') : planInv t t' := by
  simp only [Task.visitAsFile] at h
  cases hrel : (FPath.absolute cwd path).relative_to src_root with
  | none => rw [hrel] at h; cases h
  | some rel =>
    rw [hrel] at h
    cases h
    exact planInv_record_file t _ _ _

mutual
theorem visitNode_planInv {cwd : List String} {src_root dst : FPath} {exc : List String}
    {path : FPath} (node : FSTree) {t t' : Task}
    (h : Task.visitNode cwd src_root dst exc path node t = .ok t') : planInv t t' := by
  cases node with
  | file sz =>
    simp only [Task.visitNode] at h
    by_cases hex : Task.should_exclude (FPath.absolute cwd path) exc = true
    · rw [if_pos hex] at h
      cases h
      exact planInv_refl t
    · rw [if_neg hex] at h
      exact visitAsFile_planInv h
  | dir children =>
    simp only [Task.visitNode] at h
    by_cases hex : Task.should_exclude (FPath.absolute cwd path) exc = true
    · rw [if_pos hex] at h
      cases h
      exact planInv_refl t
    · rw [if_neg hex] at h
      cases hrel : (FPath.absolute cwd path).relative_to src_root with
      | none => rw [hrel] at h; cases h
      | some rel =>
        rw [hrel] at h
        exact planInv_trans (planInv_add_pre_dir t _) (visitChildren_planInv children h)

theorem visitChildren_planInv {cwd : List String} {src_root dst : FPath}
    {exc : List String} {parent : FPath} (children : FSChildren) {t t' : Task}
    (h : Task.visitChildren cwd src_root dst exc parent children t = .ok t') : planInv t t' := by
  cases children with
  | nil =>
    simp only [Task.visitChildren] at h
    cases h
    exact planInv_refl t
  | cons n c rest =>
    simp only [Task.visitChildren] at h
    cases heq : Task.visitChildren cwd src_root dst exc parent rest t with
    | error e => rw [heq] at h; cases h
    | ok t2 =>
      rw [heq] at h
      exact planInv_trans (visitChildren_planInv rest heq) (visitNode_planInv c h)
end

theorem visitEntry_planInv {cwd : List String} {src_root dst : FPath} {exc : List String}
    {path : FPath} {node : Option FSTree} {t t' : Task}
    (h : Task.visitEntry cwd src_root dst exc path node t = .ok t') : planInv t t' := by
  cases node with
  | some n => exact visitNode_planInv n h
  | none =>
    simp only [Task.visitEntry] at h
    by_cases hex : Task.should_exclude (FPath.absolute cwd path) exc = true
    · rw [if_pos hex] at h
      cases h
      exact planInv_refl t
    · rw [if_neg hex] at h
      exact visitAsFile_planInv h

theorem prepare_jobs_planInv {fs : FSTree} {cwd : List String} :
    ∀ (jobs : List (FPath × FPath × List String)) (t t' : Task),
      Task.prepare_jobs fs cwd jobs t = .ok t' → planInv t t' := by
  intro jobs
  induction jobs with
  | nil =>
    intro t t' h
    cases h
    exact planInv_refl t
  | cons job rest ih =>
    intro t t' h
    obtain ⟨src_root, dst, exc⟩ := job
    simp only [Task.prepare_jobs] at h
    cases heq : Task.visitEntry cwd src_root dst exc src_root
        (fs.lookup ((src_root.absolute cwd).comps)) t with
    | error e => rw [heq] at h; cases h
    | ok t2 =>
      rw [heq] at h
      exact planInv_trans (visitEntry_planInv heq) (ih t2 t' h)

theorem prepare_planInv {fs : FSTree} {cwd : List String} {t t' : Task}
    (h : Task.prepare fs cwd t = .ok t') : planInv t t' :=
  prepare_jobs_planInv _ t t' h

/-- C5: `prepare` only ever appends planned directories, and appends one
only when it is not yet recorded, so starting from a duplicate-free
planned-directory list the resulting list is duplicate-free and keeps
every already-recorded directory at its position (first-seen order). -/
theorem claim_C5_dirs_dedup : ∀ (fs : FSTree) (cwd : List String) (t t' : Task),
    Task.prepare fs cwd t = .ok t' → t.pre_directories.Nodup →
    (t'.pre_directories.Nodup ∧
     ∃ added, t'.pre_directories = t.pre_directories ++ added) :=
  fun _ _ _ _ h hn => ⟨(prepare_planInv h).2.2.2.1 hn, (prepare_planInv h).1⟩

/-- C5 witness: the plan built over `fsE` with exclude pattern `sub`
(whose destination directory `/b` is implied both by the source root and
by the parent of `x.txt`) has a duplicate-free directory list. -/
theorem claim_C5_witness :
    (Task.prepare fsE [] t1Fix = .ok exT1) ∧
    (t1Fix.pre_directories.Nodup) ∧
    (exT1.pre_directories.Nodup ∧
     ∃ added, exT1.pre_directories = t1Fix.pre_directories ++ added) :=
  ⟨rfl, by simp [t1Fix], claim_C5_dirs_dedup fsE [] t1Fix exT1 rfl (by simp [t1Fix])⟩

/-- C10: `prepare` preserves the invariant that the parent directory of
every planned destination file is itself a planned directory, so the
directory pass of `execute` covers the destination directory of every
file in the file pass. -/
theorem claim_C10_parent_dir_recorded : ∀ (fs : FSTree) (cwd : List String) (t t' : Task),
    Task.prepare fs cwd t = .ok t' →
    (∀ d ∈ t.pre_file_dst, d.parentPath ∈ t.pre_directories) →
    ∀ d ∈ t'.pre_file_dst, d.parentPath ∈ t'.pre_directories :=
  fun _ _ _ _ h hP => (prepare_planInv h).2.2.2.2 hP

/-- C10 witness: in the plan built over `fsE`, the parent of every
planned destination file is among the planned directories. -/
theorem claim_C10_witness :
    (Task.prepare fsE [] t1Fix = .ok exT1) ∧
    (∀ d ∈ t1Fix.pre_file_dst, d.parentPath ∈ t1Fix.pre_directories) ∧
    (∀ d ∈ exT1.pre_file_dst, d.parentPath ∈ exT1.pre_directories) :=
  ⟨rfl, by simp [t1Fix],
    claim_C10_parent_dir_recorded fsE [] t1Fix exT1 rfl (by simp [t1Fix])⟩

/-! ### Subtree-wide exclusion (C1) -/

theorem isPrefixOf_append_self (l r : List String) : l.isPrefixOf (l ++ r) = true := by
  induction l with
  | nil => cases r <;> rfl
  | cons a as ih => simp [List.isPrefixOf, ih]

theorem relative_to_append (rc rel : List String) :
    FPath.relative_to ⟨true, rc ++ rel⟩ ⟨true, rc⟩ = some rel := by
  simp [FPath.relative_to, isPrefixOf_append_self, List.drop_left]

/-- The whole chain from the job's source root down to the entry at
relative position `rel` passes the exclusion test (the traversal tested
and kept the root and every intermediate directory). -/
def chainAll (rc exc rel : List String) : Prop :=
  ∀ k, k ≤ rel.length → Task.should_exclude ⟨true, rc ++ rel.take k⟩ exc = false

theorem chainAll_build {rc exc rel : List String}
    (hanc : ∀ k, k < rel.length → Task.should_exclude ⟨true, rc ++ rel.take k⟩ exc = false)
    (hself : Task.should_exclude ⟨true, rc ++ rel⟩ exc = false) : chainAll rc exc rel := by
  intro k hk
  cases Nat.lt_or_ge k rel.length with
  | inl hlt => exact hanc k hlt
  | inr hge =>
    have hk2 : k = rel.length := Nat.le_antisymm hk hge
    subst hk2
    rw [List.take_length]
    exact hself

theorem chainAll_dropLast {rc exc rel : List String} (h : chainAll rc exc rel) :
    chainAll rc exc rel.dropLast := by
  intro k hk
  rw [List.dropLast_eq_take, List.take_take]
  have hk2 : k ≤ rel.length - 1 := by simpa [List.length_dropLast] using hk
  rw [Nat.min_eq_left hk2]
  exact h k (Nat.le_trans hk2 (Nat.sub_le _ _))

theorem chainAll_anc_extend {rc exc relp : List String} (h : chainAll rc exc relp)
    (n : String) :
    ∀ k, k < (relp ++ [n]).length →
      Task.should_exclude ⟨true, rc ++ (relp ++ [n]).take k⟩ exc = false := by
  intro k hk
  have hk2 : k ≤ relp.length := by
    simp only [List.length_append, List.length_cons, List.length_nil] at hk
    omega
  rw [List.take_append_eq_append_take, Nat.sub_eq_zero_of_le hk2]
  simp only [List.take_zero, List.append_nil]
  exact h k hk2

/-- What the traversal guarantees about growth of the plan: every new
planned file source is a chain-clear descendant of the source root, and
every new planned directory is the destination image of a chain-clear
descendant. -/
def exclConc (rc : List String) (dst : FPath) (exc : List String) (t t' : Task) : Prop :=
  (∀ s ∈ t'.pre_file_src, s ∈ t.pre_file_src ∨
    ∃ rel, s = (⟨true, rc ++ rel⟩ : FPath) ∧ chainAll rc exc rel) ∧
  (∀ d ∈ t'.pre_directories, d ∈ t.pre_directories ∨
    ∃ rel, d = dst.join rel ∧ chainAll rc exc rel)

theorem exclConc_refl {rc : List String} {dst : FPath} {exc : List String} (t : Task) :
    exclConc rc dst exc t t :=
  ⟨fun _ hs => Or.inl hs, fun _ hd => Or.inl hd⟩

theorem exclConc_trans {rc : List String} {dst : FPath} {exc : List String}
    {t t2 t' : Task} (h1 : exclConc rc dst exc t t2) (h2 : exclConc rc dst exc t2 t') :
    exclConc rc dst exc t t' := by
  constructor
  · intro s hs
    rcases h2.1 s hs with hs2 | hs2
    · exact h1.1 s hs2
    · exact Or.inr hs2
  · intro d hd
    rcases h2.2 d hd with hd2 | hd2
    · exact h1.2 d hd2
    · exact Or.inr hd2

theorem visitAsFile_excl {cwd rc : List String} {dst path : FPath} {t t' : Task}
    {exc rel0 : List String}
    (h : Task.visitAsFile cwd ⟨true, rc⟩ dst path t = .ok t')
    (hpath : path.absolute cwd = ⟨true, rc ++ rel0⟩)
    (hchain : chainAll rc exc rel0) : exclConc rc dst exc t t' := by
  simp only [Task.visitAsFile] at h
  rw [hpath, relative_to_append] at h
  cases h
  constructor
  · intro s hs
    simp only [Task.add_pre_file, add_pre_dir_pre_file_src] at hs
    rcases List.mem_append.mp hs with hs2 | hs2
    · exact Or.inl hs2
    · rcases List.mem_singleton.mp hs2 with rfl
      exact Or.inr ⟨rel0, rfl, hchain⟩
  · intro d hd
    simp only [Task.add_pre_file] at hd
    rcases mem_add_pre_dir_cases hd with hd2 | rfl
    · exact Or.inl hd2
    · exact Or.inr ⟨rel0.dropLast, rfl, chainAll_dropLast hchain⟩

mutual
theorem visitNode_excl {cwd rc : List String} {dst : FPath} {exc : List String}
    {path : FPath} (node : FSTree) (rel0 : List String) {t t' : Task}
    (h : Task.visitNode cwd ⟨true, rc⟩ dst exc path node t = .ok t')
    (hpath : path.absolute cwd = ⟨true, rc ++ rel0⟩)
    (hanc : ∀ k, k < rel0.length →
      Task.should_exclude ⟨true, rc ++ rel0.take k⟩ exc = false) :
    exclConc rc dst exc t t' := by
  cases node with
  | file sz =>
    simp only [Task.visitNode] at h
    rw [hpath] at h
    by_cases hex : Task.should_exclude ⟨true, rc ++ rel0⟩ exc = true
    · rw [if_pos hex] at h
      cases h
      exact exclConc_refl t
    · rw [if_neg hex] at h
      exact visitAsFile_excl h hpath (chainAll_build hanc (by simpa using hex))
  | dir children =>
    simp only [Task.visitNode] at h
    rw [hpath] at h
    by_cases hex : Task.should_exclude ⟨true, rc ++ rel0⟩ exc = true
    · rw [if_pos hex] at h
      cases h
      exact exclConc_refl t
    · rw [if_neg hex] at h
      rw [relative_to_append] at h
      have hchain := chainAll_build hanc (by simpa using hex)
      have hrec := visitChildren_excl children rel0 h rfl hchain
      refine exclConc_trans ?_ hrec
      constructor
      · intro s hs
        rw [add_pre_dir_pre_file_src] at hs
        exact Or.inl hs
      · intro d hd
        rcases mem_add_pre_dir_cases hd with hd2 | rfl
        · exact Or.inl hd2
        · exact Or.inr ⟨rel0, rfl, hchain⟩

theorem visitChildren_excl {cwd rc : List String} {dst : FPath} {exc : List String}
    {parent : FPath} (children : FSChildren) (relp : List String) {t t' : Task}
    (h : Task.visitChildren cwd ⟨true, rc⟩ dst exc parent children t = .ok t')
    (hparent : parent = ⟨true, rc ++ relp⟩)
    (hchain : chainAll rc exc relp) : exclConc rc dst exc t t' := by
  cases children with
  | nil =>
    simp only [Task.visitChildren] at h
    cases h
    exact exclConc_refl t
  | cons n c rest =>
    simp only [Task.visitChildren] at h
    cases heq : Task.visitChildren cwd ⟨true, rc⟩ dst exc parent rest t with
    | error e => rw [heq] at h; cases h
    | ok t2 =>
      rw [heq] at h
      have h1 := visitChildren_excl rest relp heq hparent hchain
      have hpath : (parent.join [n]).absolute cwd = ⟨true, rc ++ (relp ++ [n])⟩ := by
        subst hparent
        simp [FPath.join, FPath.absolute, List.append_assoc]
      have h2 := visitNode_excl c (relp ++ [n]) h hpath (chainAll_anc_extend hchain n)
      exact exclConc_trans h1 h2
end

/-- C1: an entry is skipped exactly when its basename matches one of the
six built-in patterns or a pattern of the registering job's exclude
list; and exclusion is subtree-wide: for a single-job `prepare` over an
absolute source root, once a path within the job is excluded, neither it
nor any of its descendants contributes a planned file source, and its
destination image contributes no planned directory. -/
theorem claim_C1_exclusion_subtree :
    (∀ (p : FPath) (patl : List String),
      Task.should_exclude p patl = true ↔
        ((∃ pat ∈ Task.DEFAULT_EXCLUDE_FILE_PATTERNS, fnmatch p.name pat = true) ∨
         (∃ pat ∈ patl, fnmatch p.name pat = true))) ∧
    (∀ (fs : FSTree) (cwd rc : List String) (dst : FPath) (inc exc : List String)
       (tc : Nat) (w : List String) (t' : Task),
      Task.prepare fs cwd ⟨tc, [⟨true, rc⟩], [dst], [inc], [exc], [], [], [], w⟩ = .ok t' →
      ∀ relE ext, Task.should_exclude ⟨true, rc ++ relE⟩ exc = true →
        ((⟨true, rc ++ (relE ++ ext)⟩ : FPath) ∉ t'.pre_file_src ∧
         dst.join (relE ++ ext) ∉ t'.pre_directories)) := by
  constructor
  · intro p patl
    simp [Task.should_exclude, List.any_eq_true]
  · intro fs cwd rc dst inc exc tc w t' h relE ext hexcl
    have h' : Task.prepare_jobs fs cwd [(⟨true, rc⟩, dst, exc)]
        ⟨tc, [⟨true, rc⟩], [dst], [inc], [exc], [], [], [], w⟩ = .ok t' := h
    simp only [Task.prepare_jobs] at h'
    cases heq : Task.visitEntry cwd ⟨true, rc⟩ dst exc ⟨true, rc⟩
        (fs.lookup (((⟨true, rc⟩ : FPath).absolute cwd).comps))
        ⟨tc, [⟨true, rc⟩], [dst], [inc], [exc], [], [], [], w⟩ with
    | error e => rw [heq] at h'; cases h'
    | ok t2 =>
      rw [heq] at h'
      simp only [Task.prepare_jobs] at h'
      cases h'
      have habs : (⟨true, rc⟩ : FPath).absolute cwd = ⟨true, rc ++ []⟩ := by
        simp [FPath.absolute]
      have hconc : exclConc rc dst exc
          ⟨tc, [⟨true, rc⟩], [dst], [inc], [exc], [], [], [], w⟩ t' := by
        simp only [Task.visitEntry] at heq
        cases hlk : fs.lookup (((⟨true, rc⟩ : FPath).absolute cwd).comps) with
        | some n =>
          rw [hlk] at heq
          exact visitNode_excl n [] heq habs (by intro k hk; cases hk)
        | none =>
          rw [hlk] at heq
          rw [habs] at heq
          by_cases hex : Task.should_exclude ⟨true, rc ++ []⟩ exc = true
          · rw [if_pos hex] at heq
            cases heq
            exact exclConc_refl _
          · rw [if_neg hex] at heq
            refine visitAsFile_excl heq habs ?_
            intro k hk
            have hk0 : k = 0 := Nat.le_zero.mp hk
            subst hk0
            simpa using hex
      constructor
      · intro hmem
        rcases hconc.1 _ hmem with h0 | ⟨rel, heq2, hch⟩
        · simp at h0
        · have hcomps : rc ++ (relE ++ ext) = rc ++ rel := congrArg FPath.comps heq2
          have hrel : rel = relE ++ ext := (List.append_cancel_left hcomps).symm
          subst hrel
          have hk := hch relE.length (by simp)
          rw [List.take_left] at hk
          simp [hk] at hexcl
      · intro hmem
        rcases hconc.2 _ hmem with h0 | ⟨rel, heq2, hch⟩
        · simp at h0
        · have hcomps : dst.comps ++ (relE ++ ext) = dst.comps ++ rel := by
            simpa [FPath.join] using congrArg FPath.comps heq2
          have hrel : rel = relE ++ ext := (List.append_cancel_left hcomps).symm
          subst hrel
          have hk := hch relE.length (by simp)
          rw [List.take_left] at hk
          simp [hk] at hexcl

/-- C1 witness: over `fsE` with exclude pattern `sub`, the excluded
directory `/a/sub` keeps its descendant `/a/sub/y.tmp` out of the
planned file sources and `/b/sub/y.tmp` out of the planned
directories. -/
theorem claim_C1_witness :
    (Task.prepare fsE []
        ⟨0, [⟨true, ["a"]⟩], [⟨true, ["b"]⟩], [[]], [["sub"]], [], [], [], []⟩ =
      .ok exT1) ∧
    (Task.should_exclude ⟨true, ["a", "sub"]⟩ ["sub"] = true) ∧
    ((⟨true, ["a", "sub", "y.tmp"]⟩ : FPath) ∉ exT1.pre_file_src ∧
     FPath.join ⟨true, ["b"]⟩ (["sub"] ++ ["y.tmp"]) ∉ exT1.pre_directories) := by
  refine ⟨rfl, rfl, ?_⟩
  exact claim_C1_exclusion_subtree.2 fsE [] ["a"] ⟨true, ["b"]⟩ [] ["sub"] 0 [] exT1 rfl
    ["sub"] ["y.tmp"] rfl

end Fcopy
